import Mathlib

/-!
Verification development for the APV250 extraction engine (src/app.py).

The Python source works on ordinary strings with `re`; here strings are
shallowly embedded as `List Char` and each regular expression used by the
extractor is translated into an executable matcher with the same semantics
(leftmost `re.search`, greedy/lazy quantifiers, `re.IGNORECASE` closure of
character classes).  Wherever a regex mixes adjacent quantifiers over
disjoint character classes, the greedy scan needs no backtracking and the
matcher says so in a comment.
-/

set_option maxRecDepth 40000

abbrev Str := List Char

/-! ## Character classes (ASCII, as used by the source's regexes) -/

/-- Contiguous ASCII character range, e.g. `charRange 'a' 'z'`. -/
def charRange (a b : Char) : List Char :=
  (List.range (b.toNat + 1 - a.toNat)).map (fun i => Char.ofNat (a.toNat + i))

def digitChars : List Char := charRange '0' '9'

def upperChars : List Char := charRange 'A' 'Z'

def lowerChars : List Char := charRange 'a' 'z'

/-- Python's `\s` class: space, tab, newline, carriage return, form feed, vertical tab. -/
def wsChars : List Char := [' ', '\t', '\n', '\r', '\x0c', '\x0b']

/-- The `[:\s]` class that the source puts after every field label. -/
def sepChars : List Char := ':' :: wsChars

/-- ASCII uppercasing, as `str.upper` acts on the ASCII letters. -/
def asciiUpper (c : Char) : Char :=
  if 'a' ≤ c ∧ c ≤ 'z' then Char.ofNat (c.toNat - 32) else c

/-- ASCII lowercasing, as `str.lower` acts on the ASCII letters. -/
def asciiLower (c : Char) : Char :=
  if 'A' ≤ c ∧ c ≤ 'Z' then Char.ofNat (c.toNat + 32) else c

/-- `[A-HJ-NPR-Z0-9IOSl]` under `re.IGNORECASE`: adding `IOSl` to the three
uppercase ranges leaves every ASCII letter but `Q`, and case insensitivity
closes the set under case, so the class is all letters except `Q`/`q` plus
the digits. -/
def vinCls1 : List Char :=
  upperChars.filter (fun c => !(c = 'Q')) ++ lowerChars.filter (fun c => !(c = 'q')) ++ digitChars

/-- `[A-Z0-9]` under `re.IGNORECASE`: every ASCII letter plus the digits. -/
def vinCls2 : List Char := upperChars ++ lowerChars ++ digitChars

/-- `[A-Za-z]`. -/
def alphaChars : List Char := upperChars ++ lowerChars

/-- `[A-Z\s]`, the tail class of the surname-fallback pattern. -/
def upWsChars : List Char := upperChars ++ wsChars

def inCls (cs : List Char) (c : Char) : Bool := decide (c ∈ cs)

/-! ## Generic matcher pieces -/

/-- Match a literal at the head: `some rest` on success. -/
def stripLit : Str → Str → Option Str
  | [], s => some s
  | _ :: _, [] => none
  | p :: ps, c :: cs => if c = p then stripLit ps cs else none

/-- Case-insensitive literal match (ASCII case folding), for `re.IGNORECASE`. -/
def stripLitCI : Str → Str → Option Str
  | [], s => some s
  | _ :: _, [] => none
  | p :: ps, c :: cs => if asciiLower c = asciiLower p then stripLitCI ps cs else none

/-- Greedy run of class characters, the translation of `C*`/`C+` when the
following pattern piece cannot match a `C` character. -/
def takeRun (p : Char → Bool) (s : Str) : Str := s.takeWhile p

def dropRun (p : Char → Bool) (s : Str) : Str := s.dropWhile p

/-- Exactly `n` characters of a class (`C{n}`); `none` if one of the first
`n` characters is missing or out of class. -/
def takeExact (p : Char → Bool) : Nat → Str → Option Str
  | 0, _ => some []
  | _ + 1, [] => none
  | n + 1, c :: cs => if p c then (takeExact p n cs).map (c :: ·) else none

/-- `re.search`: try the position matcher at each index, leftmost first. -/
def reSearch (f : Str → Option α) : Str → Option α
  | [] => f []
  | c :: s =>
    match f (c :: s) with
    | some r => some r
    | none => reSearch f s

/-- Substring test (used for the `x in body_lower` keyword checks). -/
def isSubstr (n : Str) : Str → Bool
  | [] => n.isEmpty
  | s@(_ :: rest) => (stripLit n s).isSome || isSubstr n rest

/-- Python `str.strip`: drop leading and trailing whitespace. -/
def stripWs (s : Str) : Str :=
  ((s.dropWhile (inCls wsChars)).reverse.dropWhile (inCls wsChars)).reverse

/-- Python `str.replace` for single characters is a character-wise map. -/
def pyReplace (a b : Char) (s : Str) : Str := s.map (fun c => if c = a then b else c)

/-- Truthiness of `vehicle_data.get(key)`: false for a missing key and for
the empty string. -/
def pyTruthy (o : Option Str) : Bool :=
  match o with
  | none => false
  | some s => !s.isEmpty

/-- Value of `int` on a digit string. -/
def natOfDigits (s : Str) : Nat := s.foldl (fun n c => 10 * n + (c.toNat - 48)) 0

/-! ## Text normalizer (src/app.py line 205) -/

/-- The OCR artifact characters removed by `re.sub(r'[|\[\]{}]', '', text)`. -/
def artifactChars : List Char := ['|', '[', ']', '\x7b', '\x7d']

def textClean (s : Str) : Str := s.filter (fun c => !(inCls artifactChars c))

/-! ## Field extractors (src/app.py lines 207 to 229 and 298 to 318)

Each `try...` function matches one regex at a fixed position and returns the
captured group; `reSearch` turns it into `re.search`. -/

/-- `Registration Number[:\s]+(\d{7,8})` at one position.  `[:\s]` and `\d`
are disjoint, so the greedy separator run never has to backtrack; `{7,8}`
greedily captures up to eight digits of the digit run. -/
def tryReg1 (s : Str) : Option Str :=
  match stripLit "Registration Number".toList s with
  | none => none
  | some r =>
    let seps := takeRun (inCls sepChars) r
    if seps.isEmpty then none
    else
      let run := takeRun (inCls digitChars) (dropRun (inCls sepChars) r)
      if 7 ≤ run.length then some (run.take 8) else none

/-- `Registration Number[:\s]*(\d{7,8})` at one position. -/
def tryReg2 (s : Str) : Option Str :=
  match stripLit "Registration Number".toList s with
  | none => none
  | some r =>
    let run := takeRun (inCls digitChars) (dropRun (inCls sepChars) r)
    if 7 ≤ run.length then some (run.take 8) else none

/-- Lines 208-212: first pattern wins, second is the fallback. -/
def regField (tc : Str) : Option Str :=
  match reSearch tryReg1 tc with
  | some v => some v
  | none => reSearch tryReg2 tc

/-- `VIN[:\s]*([A-HJ-NPR-Z0-9IOSl]{17})` with `re.IGNORECASE` at one position. -/
def tryVin1 (s : Str) : Option Str :=
  match stripLitCI "VIN".toList s with
  | none => none
  | some r => takeExact (inCls vinCls1) 17 (dropRun (inCls sepChars) r)

/-- `VIN[:\s]*([A-Z0-9]{17})` with `re.IGNORECASE` at one position. -/
def tryVin2 (s : Str) : Option Str :=
  match stripLitCI "VIN".toList s with
  | none => none
  | some r => takeExact (inCls vinCls2) 17 (dropRun (inCls sepChars) r)

/-- Lines 221-223: `.upper()` then the fixed OCR substitutions
`I→1, O→0, S→5, l→1`, each a whole-string `str.replace`. -/
def vinReplace (s : Str) : Str :=
  pyReplace 'l' '1' (pyReplace 'S' '5' (pyReplace 'O' '0' (pyReplace 'I' '1' s)))

def vinNorm (raw : Str) : Str := vinReplace (raw.map asciiUpper)

/-- Lines 214-224: two VIN patterns, then normalization of the match. -/
def vinField (tc : Str) : Option Str :=
  match (match reSearch tryVin1 tc with
         | some v => some v
         | none => reSearch tryVin2 tc) with
  | some raw => some (vinNorm raw)
  | none => none

/-- `Year[:\s]*(\d{4})` at one position. -/
def tryYear (s : Str) : Option Str :=
  match stripLit "Year".toList s with
  | none => none
  | some r => takeExact (inCls digitChars) 4 (dropRun (inCls sepChars) r)

def yearField (tc : Str) : Option Str := reSearch tryYear tc

/-- `Fuel Type[:\s]*([A-Za-z]+)` at one position. -/
def tryFuel (s : Str) : Option Str :=
  match stripLit "Fuel Type".toList s with
  | none => none
  | some r =>
    let run := takeRun (inCls alphaChars) (dropRun (inCls sepChars) r)
    if run.isEmpty then none else some run

def fuelTok (tc : Str) : Option Str := reSearch tryFuel tc

/-- The `fuel_codes` dictionary of lines 302-305, with `.get(fuel, 'G')`. -/
def fuelTable : List (Str × Str) :=
  [("GASOLINE".toList, "G".toList), ("GAS".toList, "G".toList),
   ("DIESEL".toList, "D".toList), ("ELECTRIC".toList, "E".toList),
   ("HYBRID".toList, "L".toList), ("PROPANE".toList, "P".toList),
   ("NATURAL".toList, "N".toList)]

def lookupFuel (s : Str) : Str :=
  match fuelTable.find? (fun p => p.1 = s) with
  | some p => p.2
  | none => "G".toList

/-- Lines 299-309: fuel code, defaulting to `G`. -/
def fuelCodeField (tc : Str) : Str :=
  match fuelTok tc with
  | some tok => lookupFuel (tok.map asciiUpper)
  | none => "G".toList

/-- Lines 299-309: the raw uppercased fuel text, stored only when the label
pattern matched. -/
def fuelTypeField (tc : Str) : Option Str := (fuelTok tc).map (·.map asciiUpper)

/-- `Number of Owners[:\s]*(\d+)` at one position. -/
def tryNumOwners (s : Str) : Option Str :=
  match stripLit "Number of Owners".toList s with
  | none => none
  | some r =>
    let run := takeRun (inCls digitChars) (dropRun (inCls sepChars) r)
    if run.isEmpty then none else some run

/-- Lines 317-318: parsed owner count, defaulting to 1. -/
def numOwners (tc : Str) : Nat :=
  match reSearch tryNumOwners tc with
  | some ds => natOfDigits ds
  | none => 1

example : regField "Registration Number: 1234567".toList = some "1234567".toList := by decide
example : yearField "x Year: 2018 y".toList = some "2018".toList := by decide
example : vinField "VIN: 1HGCM82633A0043S2".toList = some "1HGCM82633A004352".toList := by decide
example : fuelCodeField "Fuel Type: Diesel".toList = "D".toList := by decide
example : numOwners "Number of Owners: 2".toList = 2 := by decide

/-! ## Owner section and names (src/app.py lines 320-338)

`re.search(r'Registered Owner.*?(?=This Certificate|Number of Owners|$)',
text_clean, re.DOTALL | re.IGNORECASE)`: the lazy `.*?` (with `.` matching
newlines under DOTALL) extends one character at a time until the lookahead
holds; without MULTILINE, `$` holds at the end of the text or just before a
final newline. -/

def sectionEndsHere (r : Str) : Bool :=
  (stripLitCI "This Certificate".toList r).isSome ||
  (stripLitCI "Number of Owners".toList r).isSome ||
  r.isEmpty || r == ['\n']

/-- The lazy `.*?` scan: shortest extension at which the lookahead holds. -/
def lazySpan : Str → Option Str
  | [] => if sectionEndsHere [] then some [] else none
  | c :: r => if sectionEndsHere (c :: r) then some [] else (lazySpan r).map (c :: ·)

/-- The owner-section pattern at one position; the value is `group(0)`, the
literal as it stands in the text followed by the lazily matched span. -/
def trySection (s : Str) : Option Str :=
  match stripLitCI "Registered Owner".toList s with
  | none => none
  | some r => (lazySpan r).map (fun mid => s.take "Registered Owner".toList.length ++ mid)

def ownerSection (tc : Str) : Option Str := reSearch trySection tc

/-- The `(?:\s+[A-Z]{2,})+` tail of the name pattern: greedy iterations, each
a nonempty whitespace run then at least two uppercase letters.  `\s` and
`[A-Z]` are disjoint, so each greedy run is forced and a failed iteration
just ends the repetition.  Returns (consumed, rest); fuel bounds the
recursion, and every iteration consumes at least three characters. -/
def nameTail : Str → Nat → Str × Str
  | s, 0 => ([], s)
  | s, fuel + 1 =>
    let ws := takeRun (inCls wsChars) s
    let r1 := dropRun (inCls wsChars) s
    let run := takeRun (inCls upperChars) r1
    if ws.isEmpty || run.length < 2 then ([], s)
    else
      let (cons, r) := nameTail (dropRun (inCls upperChars) r1) fuel
      (ws ++ run ++ cons, r)

/-- `\n([A-Z]{2,}(?:\s+[A-Z]{2,})+)` at one position: newline, a first
uppercase token of length at least two, then at least one tail iteration.
Returns the captured group (without the newline) and the rest of the text
after the whole match. -/
def tryName (s : Str) : Option (Str × Str) :=
  match s with
  | [] => none
  | c :: r =>
    if c = '\n' then
      let run := takeRun (inCls upperChars) r
      if run.length < 2 then none
      else
        let r1 := dropRun (inCls upperChars) r
        let (cons, after) := nameTail r1 r1.length
        if cons.isEmpty then none else some (run ++ cons, after)
    else none

/-- `re.findall` scan: leftmost matches, non-overlapping, resuming after each
match.  Both matchers used here consume at least one character per match, so
`length + 1` fuel always suffices. -/
def findAllAux (f : Str → Option (Str × Str)) : Str → Nat → List Str
  | _, 0 => []
  | s, fuel + 1 =>
    match f s with
    | some (cap, rest) => cap :: findAllAux f rest fuel
    | none =>
      match s with
      | [] => []
      | _ :: s' => findAllAux f s' fuel

def reFindAll (f : Str → Option (Str × Str)) (s : Str) : List Str :=
  findAllAux f s (s.length + 1)

def namesFindAll (sec : Str) : List Str := reFindAll tryName sec

/-- The alternation of the hand-curated surname fallback of line 334, in
source order. -/
def surnameList : List Str :=
  (["SACHDEV", "SINGH", "KUMAR", "KAUR", "GILL", "DHILLON", "GREWAL", "SANDHU",
    "SIDHU", "BRAR", "MANN", "CHEEMA", "DHALIWAL", "BAJWA", "JOHAL", "KHANNA",
    "SHARMA", "PATEL", "WONG", "CHEN", "LEE", "WANG", "LI", "ZHANG", "LIU",
    "YANG", "HUANG", "WU", "ZHOU", "XU", "MA", "ZHU", "HU", "LIN", "GUO",
    "SMITH", "JOHNSON", "WILLIAMS", "BROWN", "JONES", "MILLER", "DAVIS",
    "WILSON", "ANDERSON", "TAYLOR", "THOMAS", "MOORE", "MARTIN", "JACKSON",
    "WHITE", "HARRIS", "CLARK", "LEWIS", "WALKER", "HALL", "YOUNG", "KING",
    "WRIGHT", "HILL", "SCOTT", "GREEN", "ADAMS", "BAKER", "NELSON", "CARTER",
    "MITCHELL", "ROBERTS", "TURNER", "PHILLIPS", "CAMPBELL", "PARKER", "EVANS",
    "EDWARDS", "COLLINS", "STEWART", "MORRIS", "ROGERS", "REED", "COOK",
    "MORGAN", "BELL", "MURPHY", "BAILEY", "RIVERA", "COOPER", "RICHARDSON",
    "COX", "HOWARD", "WARD", "TORRES", "PETERSON", "GRAY", "RAMIREZ", "JAMES",
    "WATSON", "BROOKS", "KELLY", "SANDERS", "PRICE", "BENNETT", "WOOD",
    "BARNES", "ROSS", "HENDERSON", "COLEMAN", "JENKINS", "PERRY", "POWELL",
    "LONG", "PATTERSON", "HUGHES", "FLORES", "WASHINGTON", "BUTLER", "SIMMONS",
    "FOSTER", "GONZALES", "BRYANT", "ALEXANDER", "RUSSELL", "GRIFFIN", "DIAZ",
    "HAYES"]).map String.toList

/-- `(?:NAME1|NAME2|...)[A-Z\s]+` at one position: the regex engine tries the
literal alternatives in source order, and for each one the greedy
`[A-Z\s]+` run must be nonempty, otherwise the engine backtracks to the
next alternative.  The whole match (no group) is the findall value. -/
def trySurnameAux : List Str → Str → Option (Str × Str)
  | [], _ => none
  | w :: ws, s =>
    match stripLit w s with
    | some r =>
      let run := takeRun (inCls upWsChars) r
      if run.isEmpty then trySurnameAux ws s
      else some (w ++ run, dropRun (inCls upWsChars) r)
    | none => trySurnameAux ws s

def trySurname (s : Str) : Option (Str × Str) := trySurnameAux surnameList s

def surnamesFindAll (tc : Str) : List Str := reFindAll trySurname tc

/-- Lines 326-330 and 335-338: first match is the owner, the second becomes
the co-owner only when the declared count exceeds one. -/
def ownerFromMatches (num : Nat) (ms : List Str) : Option Str × Option Str :=
  match ms with
  | [] => (none, none)
  | m1 :: rest =>
    (some (stripWs m1),
     if 1 < num then
       match rest with
       | m2 :: _ => some (stripWs m2)
       | [] => none
     else none)

/-- Lines 320-338: the labelled section first; the surname fallback runs only
when the section approach left `owner_name` unset, i.e. when the section did
not match or its name scan found nothing. -/
def ownerPair (tc : Str) : Option Str × Option Str :=
  match ownerSection tc with
  | some sec =>
    match namesFindAll sec with
    | [] => ownerFromMatches (numOwners tc) (surnamesFindAll tc)
    | m1 :: rest => ownerFromMatches (numOwners tc) (m1 :: rest)
  | none => ownerFromMatches (numOwners tc) (surnamesFindAll tc)

/-! ## Record assembly (extract_apv250_data)

The record carries the fields the verified claims examine; the remaining
components of the source routine (make, model, body style, colour, net
weight, street address, city and postal code) are embedded separately below
at the step each claim is about. -/

structure VehicleData where
  registration_number : Option Str
  vin : Option Str
  year : Option Str
  fuel_code : Str
  fuel_type : Option Str
  owner_name : Option Str
  owner_name_2 : Option Str

def extract_apv250_data (t : Str) : VehicleData :=
  { registration_number := regField (textClean t)
    vin := vinField (textClean t)
    year := yearField (textClean t)
    fuel_code := fuelCodeField (textClean t)
    fuel_type := fuelTypeField (textClean t)
    owner_name := (ownerPair (textClean t)).1
    owner_name_2 := (ownerPair (textClean t)).2 }

/-! ## Route gates (src/app.py lines 682-683 and 814-816) -/

/-- The `upload` (and `process`) route proceeds only on a truthy `vin`. -/
def uploadGate (d : VehicleData) : Bool := pyTruthy d.vin

/-- The `process-check` route proceeds unless both `vin` and
`registration_number` are missing. -/
def processCheckGate (d : VehicleData) : Bool :=
  pyTruthy d.vin || pyTruthy d.registration_number

/-! ## Postal-code correction (src/app.py lines 376-397) -/

def postalLetterFix (c : Char) : Char :=
  if c = '2' then 'Z' else if c = '5' then 'S' else
  if c = '0' then 'O' else if c = '1' then 'I' else c

def postalDigitFix (c : Char) : Char :=
  if c = 'Z' then '2' else if c = 'S' then '5' else if c = 'O' then '0' else
  if c = 'I' then '1' else if c = 'l' then '1' else c

/-- The `for i, c in enumerate(postal)` loop with `if i in [0, 2, 4]`. -/
def postalMapAux : Nat → Str → Str
  | _, [] => []
  | i, c :: cs =>
    (if i = 0 ∨ i = 2 ∨ i = 4 then postalLetterFix c else postalDigitFix c) ::
      postalMapAux (i + 1) cs

def removeSpaces (s : Str) : Str := s.filter (fun c => !(c = ' '))

/-- Lines 377-397: `.strip().upper().replace(' ', '')`, then the position map
and the `AAA BBB` reformat when six characters remain. -/
def postalStore (tok : Str) : Str :=
  let p := removeSpaces ((stripWs tok).map asciiUpper)
  if p.length = 6 then
    let f := postalMapAux 0 p
    f.take 3 ++ ' ' :: f.drop 3
  else p

/-! ## Body-style classification (src/app.py lines 265-285) -/

def bodyKeywordHit (kws : List Str) (bl : Str) : Bool :=
  kws.any (fun k => isSubstr k bl)

def sedanKws : List Str := (["sedan", "sea", "sed", "4 door", "4door"]).map String.toList

def suvKws : List Str := (["suv", "sport util", "crossover"]).map String.toList

def truckKws : List Str := (["truck", "pickup", "pick up", "pick-up"]).map String.toList

def coupeKws : List Str := (["coupe", "cpe", "2 door", "2door"]).map String.toList

def wagonKws : List Str := (["wagon", "wgn", "estate"]).map String.toList

def convKws : List Str := (["convert", "conv", "cabriolet", "roadster"]).map String.toList

def hatchKws : List Str := (["hatch", "hatchback", "5 door", "5door"]).map String.toList

def vanKws : List Str := (["van", "minivan"]).map String.toList

/-- The fixed chain of `any(x in body_lower ...)` branches of lines 268-285,
over the uppercased text `body` and its lowercase copy `bl`. -/
def classifyCore (body bl : Str) : Str :=
  if bodyKeywordHit sedanKws bl then "SEDAN".toList
  else if bodyKeywordHit suvKws bl then "SUV".toList
  else if bodyKeywordHit truckKws bl then "TRUCK".toList
  else if bodyKeywordHit coupeKws bl then "COUPE".toList
  else if bodyKeywordHit wagonKws bl then "WAGON".toList
  else if bodyKeywordHit convKws bl then "CONVERTIBLE".toList
  else if bodyKeywordHit hatchKws bl then "HATCHBACK".toList
  else if bodyKeywordHit vanKws bl then "VAN".toList
  else body

/-- Lines 265-285: `body = group.strip().upper()`, lowercase for the keyword
tests, then the classification chain. -/
def classifyBody (captured : Str) : Str :=
  classifyCore ((stripWs captured).map asciiUpper)
    (((stripWs captured).map asciiUpper).map asciiLower)

/-- The classification as the specification words it: a fixed priority list
of categories, the first whose keyword set intersects the lowercased text
wins, and the uppercased original is the fallback. -/
def bodyCategories : List (Str × List Str) :=
  [("SEDAN".toList, sedanKws), ("SUV".toList, suvKws), ("TRUCK".toList, truckKws),
   ("COUPE".toList, coupeKws), ("WAGON".toList, wagonKws),
   ("CONVERTIBLE".toList, convKws), ("HATCHBACK".toList, hatchKws),
   ("VAN".toList, vanKws)]

def classifyCoreSpec (body bl : Str) : Str :=
  match bodyCategories.find? (fun p => bodyKeywordHit p.2 bl) with
  | some p => p.1
  | none => body

def classifyBodySpec (captured : Str) : Str :=
  classifyCoreSpec ((stripWs captured).map asciiUpper)
    (((stripWs captured).map asciiUpper).map asciiLower)

/-! ## Completeness checker (src/app.py lines 818-835) -/

structure CheckRecord where
  vin : Option Str
  registration_number : Option Str
  year : Option Str
  make : Option Str
  model : Option Str
  colour : Option Str
  owner_name : Option Str
  owner_street : Option Str
  owner_city : Option Str
  owner_postal : Option Str

/-- The `field_checks` dictionary of lines 820-831, in insertion order. -/
def fieldChecks : List ((CheckRecord → Option Str) × Str) :=
  [(CheckRecord.vin, "VIN".toList),
   (CheckRecord.registration_number, "Registration Number".toList),
   (CheckRecord.year, "Year".toList),
   (CheckRecord.make, "Make".toList),
   (CheckRecord.model, "Model".toList),
   (CheckRecord.colour, "Colour".toList),
   (CheckRecord.owner_name, "Owner Name".toList),
   (CheckRecord.owner_street, "Owner Street Address".toList),
   (CheckRecord.owner_city, "Owner City".toList),
   (CheckRecord.owner_postal, "Owner Postal Code".toList)]

/-- Lines 833-835: append the label of every field whose value is falsy. -/
def missingFields (r : CheckRecord) : List Str :=
  fieldChecks.foldl (fun acc p => if pyTruthy (p.1 r) then acc else acc ++ [p.2]) []

/-- The report as the specification words it: the required labels of the
fields absent from the record, in the fixed list order. -/
def missingSpec (r : CheckRecord) : List Str :=
  (fieldChecks.filter (fun p => (p.1 r).isNone)).map (fun p => p.2)

/-! ## Synthetic clean document (for the round-trip property) -/

/-- A synthetic clean source document with exact label formatting: the three
labels each followed by a colon, a space and the field value, one field per
line, no OCR noise. -/
def mkCleanDoc (reg year vin : Str) : Str :=
  "Registration Number: ".toList ++ reg ++ "\nYear: ".toList ++ year ++
    "\nVIN: ".toList ++ vin ++ "\n".toList

/-- The standard VIN alphabet: digits and uppercase letters except I, O, Q. -/
def stdVinChars : List Char :=
  digitChars ++ upperChars.filter (fun c => !(c = 'I' ∨ c = 'O' ∨ c = 'Q'))

/-- The standard VIN alphabet with `S` removed as well: the largest alphabet
on which the source's fixed OCR substitution is the identity. -/
def cleanVinChars : List Char :=
  digitChars ++ upperChars.filter (fun c => !(c = 'I' ∨ c = 'O' ∨ c = 'Q' ∨ c = 'S'))

/-- The character-level action of `vinNorm` (uppercase, then the four OCR
substitutions); `vinNorm` is its character-wise map. -/
def vinNormChar (c : Char) : Char :=
  let c1 := asciiUpper c
  let c2 := if c1 = 'I' then '1' else c1
  let c3 := if c2 = 'O' then '0' else c2
  let c4 := if c3 = 'S' then '5' else c3
  if c4 = 'l' then '1' else c4

/-! ## General lemmas about the matcher pieces -/

theorem reSearch_head_some {α : Type} {f : Str → Option α} {s : Str} {v : α}
    (h : f s = some v) : reSearch f s = some v := by
  cases s <;> simp [reSearch, h]

theorem reSearch_cons_none {α : Type} {f : Str → Option α} {c : Char} {s : Str}
    (h : f (c :: s) = none) : reSearch f (c :: s) = reSearch f s := by
  simp [reSearch, h]

theorem reSearch_some_exists {α : Type} {f : Str → Option α} {s : Str} {v : α}
    (h : reSearch f s = some v) : ∃ t, f t = some v := by
  induction s with
  | nil => exact ⟨[], h⟩
  | cons c t ih =>
    rw [reSearch] at h
    cases hf : f (c :: t) with
    | none => rw [hf] at h; exact ih h
    | some r => rw [hf] at h; exact ⟨c :: t, hf.trans h⟩

/-- Skipping a prefix none of whose positions can start a match. -/
theorem reSearch_append {α : Type} {f : Str → Option α} (xs ys : Str)
    (h : ∀ c zs, c :: zs <:+ xs → f (c :: (zs ++ ys)) = none) :
    reSearch f (xs ++ ys) = reSearch f ys := by
  induction xs with
  | nil => rfl
  | cons c t ih =>
    have h0 : f (c :: (t ++ ys)) = none := h c t List.suffix_rfl
    rw [List.cons_append, reSearch_cons_none h0]
    exact ih (fun c' zs' hsuf => h c' zs' (hsuf.trans (List.suffix_cons c t)))

theorem stripLit_append (lit rest : Str) : stripLit lit (lit ++ rest) = some rest := by
  induction lit with
  | nil => rfl
  | cons p ps ih => simp [stripLit, ih]

theorem stripLitCI_append (lit rest : Str) : stripLitCI lit (lit ++ rest) = some rest := by
  induction lit with
  | nil => rfl
  | cons p ps ih => simp [stripLitCI, ih]

/-- A head character outside the class stops `takeWhile`/`dropWhile`. -/
def headFails (p : Char → Bool) : Str → Prop
  | [] => True
  | c :: _ => p c = false

theorem takeRun_append {p : Char → Bool} {xs ys : Str}
    (hx : ∀ c ∈ xs, p c = true) (hy : headFails p ys) :
    takeRun p (xs ++ ys) = xs ∧ dropRun p (xs ++ ys) = ys := by
  induction xs with
  | nil =>
    cases ys with
    | nil => exact ⟨rfl, rfl⟩
    | cons c t =>
      have : p c = false := hy
      constructor <;> simp [takeRun, dropRun, List.takeWhile, List.dropWhile, this]
  | cons x xt ih =>
    have hx0 : p x = true := hx x (List.mem_cons_self x xt)
    have ⟨h1, h2⟩ := ih (fun c hc => hx c (List.mem_cons_of_mem x hc))
    constructor <;>
      simp [takeRun, dropRun, List.takeWhile, List.dropWhile, hx0] <;>
      simp [takeRun, dropRun] at h1 h2 <;> assumption

theorem takeExact_append {p : Char → Bool} {xs : Str} (ys : Str)
    (hlen : xs.length = n) (hx : ∀ c ∈ xs, p c = true) :
    takeExact p n (xs ++ ys) = some xs := by
  induction xs generalizing n with
  | nil => simp at hlen; subst hlen; rfl
  | cons x xt ih =>
    simp at hlen
    subst hlen
    have hx0 : p x = true := hx x (List.mem_cons_self x xt)
    simp [takeExact, hx0, ih rfl (fun c hc => hx c (List.mem_cons_of_mem x hc))]

theorem takeExact_some {p : Char → Bool} {n : Nat} {s v : Str}
    (h : takeExact p n s = some v) : v.length = n ∧ ∀ c ∈ v, p c = true := by
  induction n generalizing s v with
  | zero =>
    rw [takeExact] at h
    cases h
    exact ⟨rfl, by simp⟩
  | succ m ih =>
    cases s with
    | nil => exact absurd h (by simp [takeExact])
    | cons c cs =>
      rw [takeExact] at h
      by_cases hp : p c = true
      · rw [if_pos hp] at h
        rcases Option.map_eq_some'.mp h with ⟨w, hw, hv⟩
        rcases ih hw with ⟨hl, hall⟩
        subst hv
        refine ⟨by simp [hl], ?_⟩
        intro d hd
        rcases List.mem_cons.mp hd with rfl | hd'
        · exact hp
        · exact hall d hd'
      · rw [if_neg hp] at h
        exact absurd h (by simp)

theorem map_eq_self_of {f : Char → Char} {l : Str} (h : ∀ c ∈ l, f c = c) :
    l.map f = l := by
  induction l with
  | nil => rfl
  | cons c t ih =>
    simp [h c (List.mem_cons_self c t), ih (fun d hd => h d (List.mem_cons_of_mem c hd))]

theorem vinNorm_eq_map (raw : Str) : vinNorm raw = raw.map vinNormChar := by
  induction raw with
  | nil => rfl
  | cons c t ih =>
    simp only [vinNorm, vinReplace, pyReplace] at ih
    simp only [vinNorm, vinReplace, pyReplace, List.map_cons]
    rw [ih]
    show _ = vinNormChar c :: List.map vinNormChar t
    congr 1

/-! ## Postal correction as the specification words it -/

/-- The specification's fixed position/class map: letter positions 0, 2, 4
receive the digit-to-letter repairs, digit positions 1, 3, 5 the
letter-to-digit repairs, and other characters are unchanged. -/
def specPostalChar (i : Nat) (c : Char) : Char :=
  if i = 0 ∨ i = 2 ∨ i = 4 then
    if c = '2' then 'Z' else if c = '5' then 'S' else if c = '0' then 'O' else
    if c = '1' then 'I' else c
  else if i = 1 ∨ i = 3 ∨ i = 5 then
    if c = 'Z' then '2' else if c = 'S' then '5' else if c = 'O' then '0' else
    if c = 'I' then '1' else if c = 'l' then '1' else c
  else c

def specPostalMapAux : Nat → Str → Str
  | _, [] => []
  | i, c :: cs => specPostalChar i c :: specPostalMapAux (i + 1) cs

/-- The specification's correction: position map then a space after the
third character. -/
def specPostalFix (p : Str) : Str :=
  (specPostalMapAux 0 p).take 3 ++ ' ' :: (specPostalMapAux 0 p).drop 3

theorem postalMapAux_eq_spec (q : Str) (hq : q.length = 6) :
    postalMapAux 0 q = specPostalMapAux 0 q := by
  rcases q with _ | ⟨a, _ | ⟨b, _ | ⟨c, _ | ⟨d, _ | ⟨e, _ | ⟨f, _ | ⟨g, r⟩⟩⟩⟩⟩⟩⟩ <;>
    simp only [List.length_cons, List.length_nil] at hq <;> try omega
  simp [postalMapAux, specPostalMapAux, specPostalChar, postalLetterFix, postalDigitFix]

/-- C4: for a captured postal token six characters long after stripping,
uppercasing and removing spaces, the stored value is the specification's
fixed position/class map followed by the space after the third character. -/
theorem c4_postal_correction (tok : Str)
    (h : (removeSpaces ((stripWs tok).map asciiUpper)).length = 6) :
    postalStore tok = specPostalFix (removeSpaces ((stripWs tok).map asciiUpper)) := by
  simp only [postalStore, specPostalFix]
  rw [if_pos h, postalMapAux_eq_spec _ h]

/-- Witness for C4 at the token `50X 3L7` (letter-position slip `5` for `S`). -/
theorem c4_postal_correction_witness :
    (removeSpaces ((stripWs "50X 3L7".toList).map asciiUpper)).length = 6 ∧
    postalStore "50X 3L7".toList =
      specPostalFix (removeSpaces ((stripWs "50X 3L7".toList).map asciiUpper)) :=
  ⟨by decide, c4_postal_correction _ (by decide)⟩

/-! ## C6: idempotence of the VIN substitution map -/

/-- The character-level action of the four sequential replaces. -/
def vinRepChar (c : Char) : Char :=
  let c2 := if c = 'I' then '1' else c
  let c3 := if c2 = 'O' then '0' else c2
  let c4 := if c3 = 'S' then '5' else c3
  if c4 = 'l' then '1' else c4

theorem vinReplace_eq_map (s : Str) : vinReplace s = s.map vinRepChar := by
  induction s with
  | nil => rfl
  | cons c t ih =>
    simp only [vinReplace, pyReplace] at ih
    simp only [vinReplace, pyReplace, List.map_cons]
    rw [ih]
    show _ = vinRepChar c :: List.map vinRepChar t
    congr 1

theorem vinRepChar_idem (c : Char) : vinRepChar (vinRepChar c) = vinRepChar c := by
  by_cases h1 : c = 'I'
  · subst h1; decide
  by_cases h2 : c = 'O'
  · subst h2; decide
  by_cases h3 : c = 'S'
  · subst h3; decide
  by_cases h4 : c = 'l'
  · subst h4; decide
  simp [vinRepChar, h1, h2, h3, h4]

/-- C6: the fixed VIN OCR substitution (`I→1, O→0, S→5, l→1`) is idempotent:
applying it to an already-substituted string yields the same string. -/
theorem c6_vin_substitution_idempotent (v : Str) :
    vinReplace (vinReplace v) = vinReplace v := by
  have h : vinRepChar ∘ vinRepChar = vinRepChar := by
    funext c
    simp only [Function.comp_apply]
    exact vinRepChar_idem c
  rw [vinReplace_eq_map v, vinReplace_eq_map, List.map_map, h]

/-! ## C5: body-style classification -/

theorem classifyCore_eq_spec (body bl : Str) :
    classifyCore body bl = classifyCoreSpec body bl := by
  simp only [classifyCore, classifyCoreSpec, bodyCategories]
  by_cases h1 : bodyKeywordHit sedanKws bl
  · simp [List.find?, h1]
  by_cases h2 : bodyKeywordHit suvKws bl
  · simp [List.find?, h1, h2]
  by_cases h3 : bodyKeywordHit truckKws bl
  · simp [List.find?, h1, h2, h3]
  by_cases h4 : bodyKeywordHit coupeKws bl
  · simp [List.find?, h1, h2, h3, h4]
  by_cases h5 : bodyKeywordHit wagonKws bl
  · simp [List.find?, h1, h2, h3, h4, h5]
  by_cases h6 : bodyKeywordHit convKws bl
  · simp [List.find?, h1, h2, h3, h4, h5, h6]
  by_cases h7 : bodyKeywordHit hatchKws bl
  · simp [List.find?, h1, h2, h3, h4, h5, h6, h7]
  by_cases h8 : bodyKeywordHit vanKws bl
  · simp [List.find?, h1, h2, h3, h4, h5, h6, h7, h8]
  simp [List.find?, h1, h2, h3, h4, h5, h6, h7, h8]

/-- C5 (amended): the captured body-style text is classified by testing its
lowercased form against the fixed keyword sets in the priority order SEDAN,
SUV, TRUCK, COUPE, WAGON, CONVERTIBLE, HATCHBACK, VAN, the first category
whose keyword set intersects the text winning; `4 Door Sedan` classifies as
SEDAN and `Pick Up` as TRUCK; `Roadster Special` classifies as CONVERTIBLE
(`roadster` is a CONVERTIBLE keyword), and a phrase matching no keyword,
such as `Limousine`, is stored verbatim, uppercased. -/
theorem c5_body_classification :
    (∀ captured : Str, classifyBody captured = classifyBodySpec captured) ∧
    classifyBody "4 Door Sedan".toList = "SEDAN".toList ∧
    classifyBody "Pick Up".toList = "TRUCK".toList ∧
    classifyBody "Roadster Special".toList = "CONVERTIBLE".toList ∧
    classifyBody "Limousine".toList = "LIMOUSINE".toList := by
  refine ⟨fun captured => classifyCore_eq_spec _ _, by decide, by decide, by decide, by decide⟩

/-- C5 counterexample: `Roadster Special` matches the CONVERTIBLE keyword
`roadster`, so it is classified as CONVERTIBLE rather than stored verbatim
uppercased as the claim asserts. -/
theorem c5_counterexample :
    classifyBody "Roadster Special".toList = "CONVERTIBLE".toList ∧
    ¬ classifyBody "Roadster Special".toList = "ROADSTER SPECIAL".toList :=
  ⟨by decide, by decide⟩

/-! ## C8: completeness report -/

theorem missingFields_eq_filter (r : CheckRecord) :
    missingFields r =
      (fieldChecks.filter (fun p => !pyTruthy (p.1 r))).map (fun p => p.2) := by
  have key : ∀ (l : List ((CheckRecord → Option Str) × Str)) (acc : List Str),
      l.foldl (fun acc p => if pyTruthy (p.1 r) then acc else acc ++ [p.2]) acc =
        acc ++ (l.filter (fun p => !pyTruthy (p.1 r))).map (fun p => p.2) := by
    intro l
    induction l with
    | nil => intro acc; simp
    | cons p t ih =>
      intro acc
      by_cases hp : pyTruthy (p.1 r) <;>
        simp [List.foldl_cons, List.filter_cons, hp, ih, List.append_assoc]
  simpa using key fieldChecks []

/-- C8: for a record whose present required fields are nonempty strings (as
every extracted value is), the report is exactly the labels of the absent
required fields, in the fixed order of the checklist. -/
theorem c8_missing_field_report (r : CheckRecord)
    (h : ∀ p ∈ fieldChecks, p.1 r ≠ some []) :
    missingFields r = missingSpec r := by
  rw [missingFields_eq_filter]
  simp only [missingSpec]
  congr 1
  apply List.filter_congr
  intro p hp
  cases hv : p.1 r with
  | none => simp [pyTruthy, hv]
  | some s =>
    have hne : s ≠ [] := fun e => h p hp (by rw [hv, e])
    simp [pyTruthy, hv, hne]

/-- Witness for C8: a record with only VIN and Colour present reports the
other eight labels in checklist order. -/
theorem c8_missing_field_report_witness :
    (∀ p ∈ fieldChecks,
      p.1 (⟨some "X".toList, none, none, none, none, some "BLUE".toList,
            none, none, none, none⟩ : CheckRecord) ≠ some []) ∧
    missingFields (⟨some "X".toList, none, none, none, none, some "BLUE".toList,
        none, none, none, none⟩ : CheckRecord) =
      missingSpec (⟨some "X".toList, none, none, none, none, some "BLUE".toList,
        none, none, none, none⟩ : CheckRecord) :=
  ⟨by decide, c8_missing_field_report _ (by decide)⟩

/-! ## C7: fuel-type extraction -/

/-- C7: when the `Fuel Type` pattern captures an alphabetic token, the fuel
code is the fixed table applied to the uppercased token (default `G`) and
the uppercased token is stored as the fuel type; when the pattern does not
match, the code is `G` and no fuel type is stored.  The concrete cases
ground the table: `Diesel` maps to `D`, the unknown `Kerosene` keeps code
`G` while storing `KEROSENE`, and an absent label yields `G` and no stored
text. -/
theorem c7_fuel_mapping :
    (∀ t : Str,
      ((extract_apv250_data t).fuel_code, (extract_apv250_data t).fuel_type) =
        match fuelTok (textClean t) with
        | some tok => (lookupFuel (tok.map asciiUpper), some (tok.map asciiUpper))
        | none => ("G".toList, none)) ∧
    (extract_apv250_data "Fuel Type: Diesel".toList).fuel_code = "D".toList ∧
    (extract_apv250_data "Fuel Type: Kerosene".toList).fuel_code = "G".toList ∧
    (extract_apv250_data "Fuel Type: Kerosene".toList).fuel_type = some "KEROSENE".toList ∧
    (extract_apv250_data "Colour: Red".toList).fuel_code = "G".toList ∧
    (extract_apv250_data "Colour: Red".toList).fuel_type = none := by
  refine ⟨fun t => ?_, by decide, by decide, by decide, by decide, by decide⟩
  cases h : fuelTok (textClean t) with
  | none => simp [extract_apv250_data, fuelCodeField, fuelTypeField, h]
  | some tok => simp [extract_apv250_data, fuelCodeField, fuelTypeField, h]

/-! ## C3: owner-name parsing at the specification's own test input -/

/-- C3: evaluating the extractor at the specification's test input.  The
name pattern's `(?:\s+[A-Z]{2,})+` tail crosses the newline between the two
owner lines (`\s` matches a newline), so the single findall match captures
`SMITH JOHN\nDOE JANE` as one name: `owner_name` holds both lines joined by
a newline, `owner_name_2` is never populated, and the same happens with the
count 1 variant.  This contradicts the claimed values `SMITH JOHN` and
`DOE JANE`. -/
theorem c3_owner_names_eval :
    (extract_apv250_data
        "Registered Owner\nSMITH JOHN\nDOE JANE\nNumber of Owners: 2".toList).owner_name =
      some "SMITH JOHN\nDOE JANE".toList ∧
    (extract_apv250_data
        "Registered Owner\nSMITH JOHN\nDOE JANE\nNumber of Owners: 2".toList).owner_name_2 =
      none ∧
    (extract_apv250_data
        "Registered Owner\nSMITH JOHN\nDOE JANE\nNumber of Owners: 1".toList).owner_name =
      some "SMITH JOHN\nDOE JANE".toList ∧
    (extract_apv250_data
        "Registered Owner\nSMITH JOHN\nDOE JANE\nNumber of Owners: 1".toList).owner_name_2 =
      none ∧
    ¬ some "SMITH JOHN\nDOE JANE".toList = some "SMITH JOHN".toList :=
  ⟨by decide, by decide, by decide, by decide, by decide⟩

/-! ## C9: owner-count invariant -/

theorem ownerFromMatches_snd {num : Nat} {ms : List Str}
    (h : (ownerFromMatches num ms).2.isSome = true) :
    1 < num ∧ (ownerFromMatches num ms).1.isSome = true := by
  rcases ms with _ | ⟨m1, rest⟩
  · simp [ownerFromMatches] at h
  · refine ⟨?_, by simp [ownerFromMatches]⟩
    by_cases hn : 1 < num
    · exact hn
    · simp [ownerFromMatches, hn] at h

/-- C9: the record carries a second owner name only when a declared owner
count greater than one was parsed from the text (the count defaults to 1
when the label is absent), and then the first owner name is present too. -/
theorem c9_owner_count_invariant (t : Str)
    (h : (extract_apv250_data t).owner_name_2.isSome = true) :
    1 < numOwners (textClean t) ∧ (extract_apv250_data t).owner_name.isSome = true := by
  have h2 : (ownerPair (textClean t)).2.isSome = true := h
  have goal2 : 1 < numOwners (textClean t) ∧ (ownerPair (textClean t)).1.isSome = true := by
    unfold ownerPair at h2 ⊢
    rcases hs : ownerSection (textClean t) with _ | sec
    · simp only [hs] at h2 ⊢
      exact ownerFromMatches_snd h2
    · simp only [hs] at h2 ⊢
      rcases hn : namesFindAll sec with _ | ⟨m1, rest⟩
      · simp only [hn] at h2 ⊢
        exact ownerFromMatches_snd h2
      · simp only [hn] at h2 ⊢
        exact ownerFromMatches_snd h2
  exact goal2

/-- Witness for C9: a document whose two owner lines are separated by a
non-name line, so the name scan returns two separate matches and the second
owner is recorded. -/
theorem c9_owner_count_invariant_witness :
    (extract_apv250_data
        "Registered Owner\nSMITH JOHN\nx\nDOE JANE\nNumber of Owners: 2".toList).owner_name_2.isSome
        = true ∧
    (1 < numOwners (textClean
        "Registered Owner\nSMITH JOHN\nx\nDOE JANE\nNumber of Owners: 2".toList) ∧
      (extract_apv250_data
        "Registered Owner\nSMITH JOHN\nx\nDOE JANE\nNumber of Owners: 2".toList).owner_name.isSome
        = true) :=
  ⟨by decide, c9_owner_count_invariant _ (by decide)⟩

/-! ## C10: shape of every stored VIN -/

theorem tryVin1_inv {s v : Str} (h : tryVin1 s = some v) :
    v.length = 17 ∧ ∀ c ∈ v, inCls vinCls1 c = true := by
  unfold tryVin1 at h
  rcases hs : stripLitCI "VIN".toList s with _ | r
  · simp only [hs] at h
    simp at h
  · simp only [hs] at h
    exact takeExact_some h

theorem tryVin2_inv {s v : Str} (h : tryVin2 s = some v) :
    v.length = 17 ∧ ∀ c ∈ v, inCls vinCls2 c = true := by
  unfold tryVin2 at h
  rcases hs : stripLitCI "VIN".toList s with _ | r
  · simp only [hs] at h
    simp at h
  · simp only [hs] at h
    exact takeExact_some h

theorem vinCls1_safe : ∀ c ∈ vinCls1, vinNormChar c ≠ 'I' ∧ vinNormChar c ≠ 'O' ∧
    vinNormChar c ≠ 'S' ∧ ¬('a' ≤ vinNormChar c ∧ vinNormChar c ≤ 'z') := by decide

theorem vinCls2_safe : ∀ c ∈ vinCls2, vinNormChar c ≠ 'I' ∧ vinNormChar c ≠ 'O' ∧
    vinNormChar c ≠ 'S' ∧ ¬('a' ≤ vinNormChar c ∧ vinNormChar c ≤ 'z') := by decide

theorem vinNorm_shape {raw v : Str} (cls : List Char) (hlen : raw.length = 17)
    (hmem : ∀ c ∈ raw, inCls cls c = true) (hv : vinNorm raw = v)
    (hsafe : ∀ c ∈ cls, vinNormChar c ≠ 'I' ∧ vinNormChar c ≠ 'O' ∧
      vinNormChar c ≠ 'S' ∧ ¬('a' ≤ vinNormChar c ∧ vinNormChar c ≤ 'z')) :
    v.length = 17 ∧ ∀ c ∈ v, c ≠ 'I' ∧ c ≠ 'O' ∧ c ≠ 'S' ∧ ¬('a' ≤ c ∧ c ≤ 'z') := by
  subst hv
  rw [vinNorm_eq_map]
  constructor
  · simp [hlen]
  · intro c hc
    rcases List.mem_map.mp hc with ⟨a, ha, rfl⟩
    have hacls : a ∈ cls := by
      have := hmem a ha
      simpa [inCls] using this
    exact hsafe a hacls

theorem vinField_some_shape {tc v : Str} (h : vinField tc = some v) :
    v.length = 17 ∧ ∀ c ∈ v, c ≠ 'I' ∧ c ≠ 'O' ∧ c ≠ 'S' ∧ ¬('a' ≤ c ∧ c ≤ 'z') := by
  unfold vinField at h
  rcases h1 : reSearch tryVin1 tc with _ | raw
  · simp only [h1] at h
    rcases h2 : reSearch tryVin2 tc with _ | raw2
    · simp only [h2] at h
      simp at h
    · simp only [h2, Option.some.injEq] at h
      obtain ⟨s2, hs2⟩ := reSearch_some_exists h2
      obtain ⟨hlen, hmem⟩ := tryVin2_inv hs2
      exact vinNorm_shape vinCls2 hlen hmem h vinCls2_safe
  · simp only [h1, Option.some.injEq] at h
    obtain ⟨s1, hs1⟩ := reSearch_some_exists h1
    obtain ⟨hlen, hmem⟩ := tryVin1_inv hs1
    exact vinNorm_shape vinCls1 hlen hmem h vinCls1_safe

/-- C10: whenever the extracted record has a `vin` entry, its value is
exactly 17 characters and contains no `I`, no `O`, no `S` and no lowercase
ASCII letter. -/
theorem c10_vin_shape (t : Str) {v : Str} (h : (extract_apv250_data t).vin = some v) :
    v.length = 17 ∧ ∀ c ∈ v, c ≠ 'I' ∧ c ≠ 'O' ∧ c ≠ 'S' ∧ ¬('a' ≤ c ∧ c ≤ 'z') :=
  vinField_some_shape h

/-- Witness for C10 at a concrete scanned text. -/
theorem c10_vin_shape_witness :
    ((extract_apv250_data "VIN: 1hgcm8263sa00435O".toList).vin =
      some "1HGCM82635A004350".toList) ∧
    ("1HGCM82635A004350".toList.length = 17 ∧
      ∀ c ∈ "1HGCM82635A004350".toList,
        c ≠ 'I' ∧ c ≠ 'O' ∧ c ≠ 'S' ∧ ¬('a' ≤ c ∧ c ≤ 'z')) :=
  ⟨by decide, c10_vin_shape ("VIN: 1hgcm8263sa00435O".toList) (by decide)⟩

/-! ## C1: usability gates of the two routes -/

theorem tryReg1_inv {s v : Str} (h : tryReg1 s = some v) : 7 ≤ v.length := by
  unfold tryReg1 at h
  rcases hs : stripLit "Registration Number".toList s with _ | r
  · simp only [hs] at h
    simp at h
  · simp only [hs] at h
    split_ifs at h with hemp hlen
    injection h with h
    subst h
    rw [List.length_take]
    omega

theorem tryReg2_inv {s v : Str} (h : tryReg2 s = some v) : 7 ≤ v.length := by
  unfold tryReg2 at h
  rcases hs : stripLit "Registration Number".toList s with _ | r
  · simp only [hs] at h
    simp at h
  · simp only [hs] at h
    split_ifs at h with hlen
    injection h with h
    subst h
    rw [List.length_take]
    omega

theorem regField_inv {tc v : Str} (h : regField tc = some v) : 7 ≤ v.length := by
  unfold regField at h
  rcases h1 : reSearch tryReg1 tc with _ | r1
  · simp only [h1] at h
    obtain ⟨s2, hs2⟩ := reSearch_some_exists h
    exact tryReg2_inv hs2
  · simp only [h1, Option.some.injEq] at h
    obtain ⟨s1, hs1⟩ := reSearch_some_exists h1
    subst h
    exact tryReg1_inv hs1

theorem pyTruthy_vinField (tc : Str) :
    pyTruthy (vinField tc) = (vinField tc).isSome := by
  cases hv : vinField tc with
  | none => rfl
  | some v =>
    have hlen : v.length = 17 := (vinField_some_shape hv).1
    have hne : v ≠ [] := by
      intro e
      rw [e] at hlen
      simp at hlen
    simp [pyTruthy, List.isEmpty_iff, hne]

theorem pyTruthy_regField (tc : Str) :
    pyTruthy (regField tc) = (regField tc).isSome := by
  cases hv : regField tc with
  | none => rfl
  | some v =>
    have hlen : 7 ≤ v.length := regField_inv hv
    have hne : v ≠ [] := by
      intro e
      rw [e] at hlen
      simp at hlen
    simp [pyTruthy, List.isEmpty_iff, hne]

/-- C1 (amended): the two routes gate differently.  The `process-check`
route proceeds exactly when the record has a `vin` or a
`registration_number` entry (hard failure when both are absent), while the
`upload` and `process` routes require a `vin` entry, so a record carrying
only a registration number is rejected there. -/
theorem c1_usability_gates (t : Str) :
    uploadGate (extract_apv250_data t) = (extract_apv250_data t).vin.isSome ∧
    processCheckGate (extract_apv250_data t) =
      ((extract_apv250_data t).vin.isSome ||
        (extract_apv250_data t).registration_number.isSome) := by
  constructor
  · exact pyTruthy_vinField (textClean t)
  · show (pyTruthy (vinField (textClean t)) || pyTruthy (regField (textClean t))) = _
    rw [pyTruthy_vinField, pyTruthy_regField]
    rfl

/-- C1 counterexample: a document with a registration number and no VIN.
One of the two keys is present (so the claim says processing proceeds), yet
the `upload` route's gate rejects the record. -/
theorem c1_counterexample :
    pyTruthy
      (extract_apv250_data "Registration Number: 1234567".toList).registration_number
        = true ∧
    uploadGate (extract_apv250_data "Registration Number: 1234567".toList) = false :=
  ⟨by decide, by decide⟩

/-! ## C2: round trip on a clean synthetic document -/

theorem inCls_true_iff {cs : List Char} {c : Char} : inCls cs c = true ↔ c ∈ cs := by
  simp [inCls]

theorem digit_not_sep : ∀ c ∈ digitChars, inCls sepChars c = false := by decide

theorem digit_not_artifact : ∀ c ∈ digitChars, (!(inCls artifactChars c)) = true := by decide

theorem digit_ne_Y : ∀ c ∈ digitChars, c ≠ 'Y' := by decide

theorem digit_not_v : ∀ c ∈ digitChars, asciiLower c ≠ 'v' := by decide

theorem cleanVin_not_sep : ∀ c ∈ cleanVinChars, inCls sepChars c = false := by decide

theorem cleanVin_not_artifact : ∀ c ∈ cleanVinChars, (!(inCls artifactChars c)) = true := by decide

theorem cleanVin_in_vinCls1 : ∀ c ∈ cleanVinChars, inCls vinCls1 c = true := by decide

theorem cleanVin_norm_id : ∀ c ∈ cleanVinChars, vinNormChar c = c := by decide

/-- The clean document split at the registration label. -/
theorem mkCleanDoc_split1 (reg year vin : Str) :
    mkCleanDoc reg year vin =
      "Registration Number".toList ++ ([':', ' '] ++ (reg ++ (['\n'] ++
        ("Year".toList ++ ([':', ' '] ++ (year ++ (['\n'] ++
          ("VIN".toList ++ ([':', ' '] ++ (vin ++ ['\n'])))))))))) := by
  have e1 : ("Registration Number: ".toList : Str) =
      "Registration Number".toList ++ [':', ' '] := by decide
  have e2 : ("\nYear: ".toList : Str) = '\n' :: ("Year".toList ++ [':', ' ']) := by decide
  have e3 : ("\nVIN: ".toList : Str) = '\n' :: ("VIN".toList ++ [':', ' ']) := by decide
  have e4 : ("\n".toList : Str) = ['\n'] := by decide
  simp only [mkCleanDoc, e1, e2, e3, e4]
  simp [List.append_assoc, List.cons_append, List.nil_append]

/-- The clean document split before the year label. -/
theorem mkCleanDoc_split2 (reg year vin : Str) :
    mkCleanDoc reg year vin =
      ("Registration Number".toList ++ [':', ' '] ++ reg ++ ['\n']) ++
        ("Year".toList ++ ([':', ' '] ++ (year ++ (['\n'] ++
          ("VIN".toList ++ ([':', ' '] ++ (vin ++ ['\n']))))))) := by
  have e1 : ("Registration Number: ".toList : Str) =
      "Registration Number".toList ++ [':', ' '] := by decide
  have e2 : ("\nYear: ".toList : Str) = '\n' :: ("Year".toList ++ [':', ' ']) := by decide
  have e3 : ("\nVIN: ".toList : Str) = '\n' :: ("VIN".toList ++ [':', ' ']) := by decide
  have e4 : ("\n".toList : Str) = ['\n'] := by decide
  simp only [mkCleanDoc, e1, e2, e3, e4]
  simp [List.append_assoc, List.cons_append, List.nil_append]

/-- The clean document split before the VIN label. -/
theorem mkCleanDoc_split3 (reg year vin : Str) :
    mkCleanDoc reg year vin =
      ("Registration Number".toList ++ [':', ' '] ++ reg ++ ['\n'] ++
        "Year".toList ++ [':', ' '] ++ year ++ ['\n']) ++
        ("VIN".toList ++ ([':', ' '] ++ (vin ++ ['\n']))) := by
  have e1 : ("Registration Number: ".toList : Str) =
      "Registration Number".toList ++ [':', ' '] := by decide
  have e2 : ("\nYear: ".toList : Str) = '\n' :: ("Year".toList ++ [':', ' ']) := by decide
  have e3 : ("\nVIN: ".toList : Str) = '\n' :: ("VIN".toList ++ [':', ' ']) := by decide
  have e4 : ("\n".toList : Str) = ['\n'] := by decide
  simp only [mkCleanDoc, e1, e2, e3, e4]
  simp [List.append_assoc, List.cons_append, List.nil_append]

theorem textClean_mkCleanDoc {reg year vin : Str}
    (hregd : ∀ c ∈ reg, c ∈ digitChars) (hyeard : ∀ c ∈ year, c ∈ digitChars)
    (hvind : ∀ c ∈ vin, c ∈ cleanVinChars) :
    textClean (mkCleanDoc reg year vin) = mkCleanDoc reg year vin := by
  apply List.filter_eq_self.mpr
  intro c hc
  have hA : ∀ c ∈ "Registration Number: ".toList, (!(inCls artifactChars c)) = true := by decide
  have hB : ∀ c ∈ "\nYear: ".toList, (!(inCls artifactChars c)) = true := by decide
  have hC : ∀ c ∈ "\nVIN: ".toList, (!(inCls artifactChars c)) = true := by decide
  have hD : ∀ c ∈ "\n".toList, (!(inCls artifactChars c)) = true := by decide
  simp only [mkCleanDoc, List.append_assoc, List.mem_append] at hc
  rcases hc with h | h | h | h | h | h | h
  · exact hA c h
  · exact digit_not_artifact c (hregd c h)
  · exact hB c h
  · exact digit_not_artifact c (hyeard c h)
  · exact hC c h
  · exact cleanVin_not_artifact c (hvind c h)
  · exact hD c h

theorem tryYear_head {c : Char} {s : Str} (hc : c ≠ 'Y') : tryYear (c :: s) = none := by
  unfold tryYear
  have e : ("Year".toList : Str) = 'Y' :: "ear".toList := by decide
  rw [e]
  simp [stripLit, hc]

theorem tryVin1_head {c : Char} {s : Str} (hc : asciiLower c ≠ 'v') :
    tryVin1 (c :: s) = none := by
  unfold tryVin1
  have e : ("VIN".toList : Str) = 'V' :: "IN".toList := by decide
  have ev : asciiLower 'V' = 'v' := by decide
  rw [e]
  simp [stripLitCI, ev, hc]


/-- The first registration pattern matched right at its label: the separator
run is `: `, the digit run is the whole registration number, and the
greedy `{7,8}` capture takes all of it. -/
theorem tryReg1_at (reg R : Str) (hreg : reg.length = 7 ∨ reg.length = 8)
    (hregd : ∀ c ∈ reg, c ∈ digitChars) (hR : headFails (inCls digitChars) R) :
    tryReg1 ("Registration Number".toList ++ ([':', ' '] ++ (reg ++ R))) = some reg := by
  have hne : reg ≠ [] := by
    intro e
    rw [e] at hreg
    simp at hreg
  obtain ⟨r0, regt, rfl⟩ := List.exists_cons_of_ne_nil hne
  unfold tryReg1
  simp only [stripLit_append]
  have hsep : takeRun (inCls sepChars) ([':', ' '] ++ ((r0 :: regt) ++ R)) = [':', ' '] ∧
      dropRun (inCls sepChars) ([':', ' '] ++ ((r0 :: regt) ++ R)) = (r0 :: regt) ++ R :=
    takeRun_append (by decide)
      (show inCls sepChars r0 = false from digit_not_sep r0 (hregd r0 (by simp)))
  have hdig : takeRun (inCls digitChars) ((r0 :: regt) ++ R) = r0 :: regt ∧
      dropRun (inCls digitChars) ((r0 :: regt) ++ R) = R :=
    takeRun_append (fun c hc => inCls_true_iff.mpr (hregd c hc)) hR
  have h7 : 7 ≤ (r0 :: regt).length := by rcases hreg with h | h <;> omega
  have h8 : (r0 :: regt).length ≤ 8 := by rcases hreg with h | h <;> omega
  simp only [hsep.1, hsep.2, hdig.1]
  simp [List.take_of_length_le h8]
  simp only [List.length_cons] at h7
  omega

/-- The year pattern matched right at its label. -/
theorem tryYear_at (year R : Str) (hlen : year.length = 4)
    (hyd : ∀ c ∈ year, c ∈ digitChars) :
    tryYear ("Year".toList ++ ([':', ' '] ++ (year ++ R))) = some year := by
  have hne : year ≠ [] := by
    intro e
    rw [e] at hlen
    simp at hlen
  obtain ⟨y0, yt, rfl⟩ := List.exists_cons_of_ne_nil hne
  unfold tryYear
  simp only [stripLit_append]
  have hboth : takeRun (inCls sepChars) ([':', ' '] ++ ((y0 :: yt) ++ R)) = [':', ' '] ∧
      dropRun (inCls sepChars) ([':', ' '] ++ ((y0 :: yt) ++ R)) = (y0 :: yt) ++ R :=
    takeRun_append (by decide)
      (show inCls sepChars y0 = false from digit_not_sep y0 (hyd y0 (by simp)))
  rw [hboth.2]
  exact takeExact_append R hlen (fun c hc => inCls_true_iff.mpr (hyd c hc))

/-- The first VIN pattern matched right at its label. -/
theorem tryVin1_at (vin R : Str) (hlen : vin.length = 17)
    (hvd : ∀ c ∈ vin, c ∈ cleanVinChars) :
    tryVin1 ("VIN".toList ++ ([':', ' '] ++ (vin ++ R))) = some vin := by
  have hne : vin ≠ [] := by
    intro e
    rw [e] at hlen
    simp at hlen
  obtain ⟨v0, vt, rfl⟩ := List.exists_cons_of_ne_nil hne
  unfold tryVin1
  simp only [stripLitCI_append]
  have hboth : takeRun (inCls sepChars) ([':', ' '] ++ ((v0 :: vt) ++ R)) = [':', ' '] ∧
      dropRun (inCls sepChars) ([':', ' '] ++ ((v0 :: vt) ++ R)) = (v0 :: vt) ++ R :=
    takeRun_append (by decide)
      (show inCls sepChars v0 = false from cleanVin_not_sep v0 (hvd v0 (by simp)))
  rw [hboth.2]
  exact takeExact_append R hlen (fun c hc => cleanVin_in_vinCls1 c (hvd c hc))

theorem regField_mkCleanDoc {reg year vin : Str}
    (hreg : reg.length = 7 ∨ reg.length = 8) (hregd : ∀ c ∈ reg, c ∈ digitChars) :
    regField (mkCleanDoc reg year vin) = some reg := by
  have h1 : tryReg1 (mkCleanDoc reg year vin) = some reg := by
    rw [mkCleanDoc_split1]
    exact tryReg1_at reg _ hreg hregd (show inCls digitChars '\n' = false by decide)
  unfold regField
  simp only [reSearch_head_some h1]

theorem yearField_mkCleanDoc {reg year vin : Str}
    (hregd : ∀ c ∈ reg, c ∈ digitChars)
    (hyear : year.length = 4) (hyeard : ∀ c ∈ year, c ∈ digitChars) :
    yearField (mkCleanDoc reg year vin) = some year := by
  have hfail : ∀ c zs,
      c :: zs <:+ ("Registration Number".toList ++ [':', ' '] ++ reg ++ ['\n']) →
      tryYear (c :: (zs ++ ("Year".toList ++ ([':', ' '] ++ (year ++ (['\n'] ++
        ("VIN".toList ++ ([':', ' '] ++ (vin ++ ['\n']))))))))) = none := by
    intro c zs hsuf
    apply tryYear_head
    have hmem : c ∈ ("Registration Number".toList ++ [':', ' '] ++ reg ++ ['\n']) :=
      hsuf.subset (List.mem_cons_self c zs)
    simp only [List.mem_append] at hmem
    rcases hmem with ((h | h) | h) | h
    · exact (by decide : ∀ c ∈ "Registration Number".toList, c ≠ 'Y') c h
    · exact (by decide : ∀ c ∈ ([':', ' '] : Str), c ≠ 'Y') c h
    · exact digit_ne_Y c (hregd c h)
    · have hc : c = '\n' := by simpa using h
      subst hc
      decide
  unfold yearField
  rw [mkCleanDoc_split2, reSearch_append _ _ hfail]
  exact reSearch_head_some (tryYear_at year _ hyear hyeard)

theorem vinField_mkCleanDoc {reg year vin : Str}
    (hregd : ∀ c ∈ reg, c ∈ digitChars) (hyeard : ∀ c ∈ year, c ∈ digitChars)
    (hvin : vin.length = 17) (hvind : ∀ c ∈ vin, c ∈ cleanVinChars) :
    vinField (mkCleanDoc reg year vin) = some vin := by
  have hfail : ∀ c zs,
      c :: zs <:+ ("Registration Number".toList ++ [':', ' '] ++ reg ++ ['\n'] ++
        "Year".toList ++ [':', ' '] ++ year ++ ['\n']) →
      tryVin1 (c :: (zs ++ ("VIN".toList ++ ([':', ' '] ++ (vin ++ ['\n']))))) = none := by
    intro c zs hsuf
    apply tryVin1_head
    have hmem : c ∈ ("Registration Number".toList ++ [':', ' '] ++ reg ++ ['\n'] ++
        "Year".toList ++ [':', ' '] ++ year ++ ['\n']) :=
      hsuf.subset (List.mem_cons_self c zs)
    simp only [List.mem_append] at hmem
    rcases hmem with ((((((h | h) | h) | h) | h) | h) | h) | h
    · exact (by decide : ∀ c ∈ "Registration Number".toList, asciiLower c ≠ 'v') c h
    · exact (by decide : ∀ c ∈ ([':', ' '] : Str), asciiLower c ≠ 'v') c h
    · exact digit_not_v c (hregd c h)
    · have hc : c = '\n' := by simpa using h
      subst hc
      decide
    · exact (by decide : ∀ c ∈ "Year".toList, asciiLower c ≠ 'v') c h
    · exact (by decide : ∀ c ∈ ([':', ' '] : Str), asciiLower c ≠ 'v') c h
    · exact digit_not_v c (hyeard c h)
    · have hc : c = '\n' := by simpa using h
      subst hc
      decide
  have hS : reSearch tryVin1 (mkCleanDoc reg year vin) = some vin := by
    rw [mkCleanDoc_split3, reSearch_append _ _ hfail]
    exact reSearch_head_some (tryVin1_at vin _ hvin hvind)
  have hid : vinNorm vin = vin := by
    rw [vinNorm_eq_map]
    exact map_eq_self_of (fun c hc => cleanVin_norm_id c (hvind c hc))
  unfold vinField
  simp only [hS, hid]

/-- C2 (amended): on a synthetic clean document with exact label formatting
— `Registration Number` followed by a 7 or 8 digit number, `Year` by a
4-digit token and `VIN` by a 17-character string over the standard VIN
alphabet with the letter `S` additionally excluded — the extracted
registration number, year and VIN equal the source values exactly. -/
theorem c2_clean_roundtrip (reg year vin : Str)
    (hreg : reg.length = 7 ∨ reg.length = 8) (hregd : ∀ c ∈ reg, c ∈ digitChars)
    (hyear : year.length = 4) (hyeard : ∀ c ∈ year, c ∈ digitChars)
    (hvin : vin.length = 17) (hvind : ∀ c ∈ vin, c ∈ cleanVinChars) :
    (extract_apv250_data (mkCleanDoc reg year vin)).registration_number = some reg ∧
    (extract_apv250_data (mkCleanDoc reg year vin)).year = some year ∧
    (extract_apv250_data (mkCleanDoc reg year vin)).vin = some vin := by
  have hclean : textClean (mkCleanDoc reg year vin) = mkCleanDoc reg year vin :=
    textClean_mkCleanDoc hregd hyeard hvind
  simp only [extract_apv250_data, hclean]
  exact ⟨regField_mkCleanDoc hreg hregd, yearField_mkCleanDoc hregd hyear hyeard,
    vinField_mkCleanDoc hregd hyeard hvin hvind⟩

/-- C2 counterexample: the VIN `ABCDEFGHJKLMNPRSU` is drawn entirely from
the standard VIN alphabet (no I, O, Q), yet the round trip is broken: the
fixed substitution turns its `S` into `5`, so the extracted VIN differs
from the source VIN of the clean document. -/
theorem c2_counterexample :
    (∀ c ∈ "ABCDEFGHJKLMNPRSU".toList, c ∈ stdVinChars) ∧
    (extract_apv250_data (mkCleanDoc "1234567".toList "2018".toList
        "ABCDEFGHJKLMNPRSU".toList)).vin = some "ABCDEFGHJKLMNPR5U".toList ∧
    ¬ ("ABCDEFGHJKLMNPR5U".toList : Str) = "ABCDEFGHJKLMNPRSU".toList :=
  ⟨by decide, by decide, by decide⟩

/-- Witness for C2 at a concrete clean document. -/
theorem c2_clean_roundtrip_witness :
    (("1234567".toList : Str).length = 7 ∨ ("1234567".toList : Str).length = 8) ∧
    (∀ c ∈ ("1234567".toList : Str), c ∈ digitChars) ∧
    (("2018".toList : Str).length = 4) ∧
    (∀ c ∈ ("2018".toList : Str), c ∈ digitChars) ∧
    (("1HGCM82633A004352".toList : Str).length = 17) ∧
    (∀ c ∈ ("1HGCM82633A004352".toList : Str), c ∈ cleanVinChars) ∧
    ((extract_apv250_data (mkCleanDoc "1234567".toList "2018".toList
        "1HGCM82633A004352".toList)).registration_number = some "1234567".toList ∧
      (extract_apv250_data (mkCleanDoc "1234567".toList "2018".toList
        "1HGCM82633A004352".toList)).year = some "2018".toList ∧
      (extract_apv250_data (mkCleanDoc "1234567".toList "2018".toList
        "1HGCM82633A004352".toList)).vin = some "1HGCM82633A004352".toList) :=
  ⟨by decide, by decide, by decide, by decide, by decide, by decide,
    c2_clean_roundtrip _ _ _ (by decide) (by decide) (by decide) (by decide)
      (by decide) (by decide)⟩
